import Mathlib

/-!
Verification of the interrupt-driven concurrency core of an embedded kernel:
the NS16550a asynchronous character-device driver (`async_ns16550a.rs`), the
cooperative executor (`executor.rs`), the interrupt-masking synchronization
primitives (`ksync/src/lib.rs`) and the stdio file layer (`fs/stdio.rs`).

The Rust code is shallowly embedded: hardware registers become explicit state
fields (the receive FIFO as a list of pending bytes whose non-emptiness is the
LSR `DATA_AVAILABLE` bit, the `THR_EMPTY` bit as a boolean, writes to the
transmit holding register as a trace list), `Waker`s become numeric identities
with `will_wake` as equality, and `VecDeque`s become lists whose head is the
front.
-/

namespace RCoreAsync

/-- State of `NS16550aRaw` together with the memory-mapped hardware it talks
to.  `rxFifo` models the hardware receive FIFO: `lsr.DATA_AVAILABLE` is set
iff it is non-empty, and reading `rbr` pops its front.  `thrEmpty` is the
`LSR::THR_EMPTY` bit; `thrWrites` is the trace of bytes written to `thr`.
`read_waker_list`, `write_waker_list` and `read_buffer` are the software
queues of the Rust struct (front of list = front of the `VecDeque`). -/
structure NS16550aRaw where
  rxFifo : List Nat
  thrEmpty : Bool
  thrWrites : List Nat
  read_waker_list : List Nat
  write_waker_list : List Nat
  read_buffer : List Nat
  deriving Repr, DecidableEq

/-- Probe `NS16550aRaw::read` (the `try_read` probe): if `LSR::DATA_AVAILABLE` is
set, read `rbr` (consuming one FIFO entry) and return the byte, else `None`. -/
def NS16550aRaw.tryRead (s : NS16550aRaw) : Option Nat × NS16550aRaw :=
  match s.rxFifo with
  | [] => (none, s)
  | ch :: rest => (some ch, { s with rxFifo := rest })

/-- Probe `NS16550aRaw::writable`: reads `lsr` and tests `LSR::THR_EMPTY`
(no side effect). -/
def NS16550aRaw.writable (s : NS16550aRaw) : Bool :=
  s.thrEmpty

/-- Dispatcher `AsyncNS16550a::handle_irq` under the interrupt-free guard.  Returns the
new state and the list of waker identities woken, in order.  Mirrors the
source exactly: `if let Some(ch) = inner.read()`, then — only if a read waker
can be popped — push the byte onto `read_buffer` and wake that waker; then if
`writable()`, pop and wake one write waker. -/
def handle_irq (s : NS16550aRaw) : NS16550aRaw × List Nat :=
  let (chOpt, s1) := s.tryRead
  let (s2, wokenR) :=
    match chOpt with
    | none => (s1, ([] : List Nat))
    | some ch =>
      match s1.read_waker_list with
      | [] => (s1, [])
      | waker :: rest =>
        ({ s1 with
            read_waker_list := rest
            read_buffer := s1.read_buffer ++ [ch] }, [waker])
  let (s3, wokenW) :=
    if s2.writable then
      match s2.write_waker_list with
      | [] => (s2, ([] : List Nat))
      | waker :: rest => ({ s2 with write_waker_list := rest }, [waker])
    else (s2, [])
  (s3, wokenR ++ wokenW)

/-- Writer poll `<AsyncCharWriter as Future>::poll` for byte `ch`, polled with waker `w`:
if `LSR::THR_EMPTY` is set, write `ch` to `thr` and return `Ready` (modelled
as `some ()`); otherwise push the waker onto `write_waker_list` and return
`Pending` (`none`). -/
def writer_poll (ch w : Nat) (s : NS16550aRaw) : NS16550aRaw × Option Unit :=
  if s.thrEmpty then
    ({ s with thrWrites := s.thrWrites ++ [ch] }, some ())
  else
    ({ s with write_waker_list := s.write_waker_list ++ [w] }, none)

/-- Reader poll `<AsyncCharReader as Future>::poll` with waker `w`: if `read_buffer` is
non-empty, pop its front and return `Ready` with that byte; otherwise register
the waker, but only when no registered waker `will_wake` the same task
(`will_wake` on waker identities is equality, i.e. `contains`). -/
def reader_poll (w : Nat) (s : NS16550aRaw) : NS16550aRaw × Option Nat :=
  match s.read_buffer with
  | ch :: rest => ({ s with read_buffer := rest }, some ch)
  | [] =>
    if s.read_waker_list.contains w then (s, none)
    else ({ s with read_waker_list := s.read_waker_list ++ [w] }, none)

/-- Iterate `n` consecutive polls of one suspended writer (state part only). -/
def writer_pollN : Nat → Nat → Nat → NS16550aRaw → NS16550aRaw
  | 0, _, _, s => s
  | n + 1, ch, w, s => writer_pollN n ch w (writer_poll ch w s).1

/-- Iterate `n` consecutive polls of one suspended reader (state part only). -/
def reader_pollN : Nat → Nat → NS16550aRaw → NS16550aRaw
  | 0, _, s => s
  | n + 1, w, s => reader_pollN n w (reader_poll w s).1

/-! ## Cooperative executor (`executor.rs`)

`Executor::run` loops: poll all tasks, then check `SIGNAL_WORK_FINISH` (set
only by `__work_finish`, which is invoked by `WorkMarker::mark_finish` from a
task); if set, break.  Else if `SIGNAL_WORK_THREAD_MODE` (set by `__pender`
whenever a waker fires) is set, clear it and re-poll; else `wfi`.  We model
one loop iteration as: deliver the batch of signals produced by the `poll()`
call and by interrupts (including those arriving during the preceding `wfi`),
then take the branch the code takes. -/

/-- A signal delivered to the executor's two atomic flags: `pend` models a
call to `__pender` (a waker fired), `finish` a call to `__work_finish`
(the termination marker). -/
inductive ExecSig where
  | pend
  | finish
  deriving Repr, DecidableEq

/-- The two process-wide atomic flags of `executor.rs`. -/
structure ExecFlags where
  work_pending : Bool
  finished : Bool
  deriving Repr, DecidableEq

/-- Effect of one signal: `__pender` stores `true` into
`SIGNAL_WORK_THREAD_MODE`; `__work_finish` stores `true` into
`SIGNAL_WORK_FINISH`.  Neither ever stores `false`. -/
def applySig (f : ExecFlags) : ExecSig → ExecFlags
  | .pend => { f with work_pending := true }
  | .finish => { f with finished := true }

/-- Deliver a batch of signals in order. -/
def applySigs (f : ExecFlags) (batch : List ExecSig) : ExecFlags :=
  batch.foldl applySig f

/-- The branch one iteration of `Executor::run` takes after `poll()`. -/
inductive ExecStep where
  | exit
  | repoll
  | halt
  deriving Repr, DecidableEq

/-- The flag checks of one iteration of `Executor::run`: if `finished`, break;
else if `work_pending`, clear it and loop back to polling; else `wfi`. -/
def execDecide (f : ExecFlags) : ExecStep × ExecFlags :=
  if f.finished then (.exit, f)
  else if f.work_pending then (.repoll, { f with work_pending := false })
  else (.halt, f)

/-- Run `Executor::run`'s loop against a finite trace of signal batches, one
batch per iteration (the signals raised by that iteration's `poll()` and by
interrupts since the previous check).  Returns the index of the iteration at
which the loop breaks, or `none` if it is still running when the trace ends. -/
def execRun : ExecFlags → List (List ExecSig) → Option Nat
  | _, [] => none
  | f, batch :: rest =>
    let f1 := applySigs f batch
    match execDecide f1 with
    | (.exit, _) => some 0
    | (_, f2) => (execRun f2 rest).map (· + 1)

/-! ## Interrupt-masking counter and cells (`ksync/src/lib.rs`) -/

/-- A hardware interrupt-state operation actually issued: `disable` models a
call to `swap_and_disable_intr`, `enable` a call to `enable_intr`. -/
inductive HwOp where
  | disable
  | enable
  deriving Repr, DecidableEq

/-- The fields of `IntrMaskingInfo`. -/
structure IntrMaskingInfo where
  nested_level : Nat
  intr_enable_before_masking : Bool
  deriving Repr, DecidableEq

/-- The masking counter together with the hardware interrupt-enable state
and the trace of hardware operations issued. -/
structure MaskSt where
  info : IntrMaskingInfo
  intrEnabled : Bool
  hwOps : List HwOp
  deriving Repr, DecidableEq

/-- Operation `IntrMaskingInfo::enter`: unconditionally call `swap_and_disable_intr`
(returning the prior enable state and disabling interrupts); record the prior
state only when `nested_level == 0`; always increment `nested_level`. -/
def enterOp (s : MaskSt) : MaskSt :=
  let prev_enable := s.intrEnabled
  let info :=
    if s.info.nested_level = 0 then
      { s.info with intr_enable_before_masking := prev_enable }
    else s.info
  { info := { info with nested_level := info.nested_level + 1 }
    intrEnabled := false
    hwOps := s.hwOps ++ [.disable] }

/-- Operation `IntrMaskingInfo::exit`: decrement `nested_level`; if it reached `0` and
the recorded prior state was enabled, call `enable_intr`. -/
def exitOp (s : MaskSt) : MaskSt :=
  let lvl := s.info.nested_level - 1
  let s1 := { s with info := { s.info with nested_level := lvl } }
  if lvl = 0 ∧ s1.info.intr_enable_before_masking then
    { s1 with intrEnabled := true, hwOps := s1.hwOps ++ [.enable] }
  else s1

/-- One call on the masking counter. -/
inductive MOp where
  | enter
  | exit
  deriving Repr, DecidableEq

/-- Apply one enter/exit call. -/
def applyMOp (s : MaskSt) : MOp → MaskSt
  | .enter => enterOp s
  | .exit => exitOp s

/-- Execute a sequence of enter/exit calls. -/
def runOps : List MOp → MaskSt → MaskSt
  | [], s => s
  | op :: rest, s => runOps rest (applyMOp s op)

/-- Well-nested (Dyck) sequences of enter/exit calls: empty, a well-nested
body wrapped in a matching enter/exit pair, or two well-nested sequences in
succession. -/
inductive Bal : List MOp → Prop
  | nil : Bal []
  | wrap {w : List MOp} : Bal w → Bal (MOp.enter :: w ++ [MOp.exit])
  | app {u v : List MOp} : Bal u → Bal v → Bal (u ++ v)

/-- Borrow flag of a `UPSafeCell` (the `RefCell` borrow state; at most one
mutable borrow, tracked as a boolean since `exclusive_access` is the only
entry point). -/
structure UPSafeCellSt where
  borrowed : Bool
  deriving Repr, DecidableEq

/-- Operation `UPSafeCell::exclusive_access` = `RefCell::borrow_mut`: panics (`none`,
fatal, no recoverable-error value) if a borrow is live, else returns the
guard, i.e. the cell with the borrow now live. -/
def upSafeCell_exclusive_access (c : UPSafeCellSt) : Option UPSafeCellSt :=
  if c.borrowed then none
  else some { c with borrowed := true }

/-- Dropping the `RefMut` guard ends the borrow. -/
def upSafeCell_drop_guard (c : UPSafeCellSt) : UPSafeCellSt :=
  { c with borrowed := false }

/-- A `UPIntrFreeCell`: the `RefCell` borrow flag plus the process-wide
masking-counter state shared by all such cells. -/
structure UPIntrFreeCellSt where
  borrowed : Bool
  mask : MaskSt
  deriving Repr, DecidableEq

/-- Operation `UPIntrFreeCell::exclusive_access`: `INTR_MASKING_INFO.enter()` then
`borrow_mut`; the borrow panics (`none`, fatal) if already live. -/
def upIntrFreeCell_exclusive_access (c : UPIntrFreeCellSt) :
    Option UPIntrFreeCellSt :=
  let m := enterOp c.mask
  if c.borrowed then none
  else some { c with borrowed := true, mask := m }

/-- Guard drop (`Drop for UPIntrRefMut`): release the borrow, then
`INTR_MASKING_INFO.exit()`. -/
def upIntrFreeCell_drop_guard (c : UPIntrFreeCellSt) : UPIntrFreeCellSt :=
  { c with borrowed := false, mask := exitOp c.mask }

/-! ## Stdio file layer (`fs/stdio.rs`) -/

/-- Result of the `send_data` task, given the byte the awaited
`ASYNC_UART.read()` future resolved to: the byte it prints, and whether it
marked the work finished. -/
structure SendDataResult where
  printed : Nat
  finishMarked : Bool
  deriving Repr, DecidableEq

/-- Task `send_data`: await the device read (yielding `deviceByte`), print it,
then invoke the termination marker. -/
def send_data (deviceByte : Nat) : SendDataResult :=
  { printed := deviceByte, finishMarked := true }

/-- Entry point `fs::stdio::read`: run the executor with `send_data` spawned, then return
the literal `'H' as u8`.  Returns the byte handed to the caller together with
the task's result. -/
def stdio_read (deviceByte : Nat) : Nat × SendDataResult :=
  let task := send_data deviceByte
  (72, task)

/-- Entry point `<Stdin as File>::read` on a 1-byte user buffer: call `read()` and store
the result into `user_buf.buffers[0]`; return count 1.  Result is
(count, byte stored in the user buffer). -/
def stdin_read (deviceByte : Nat) : Nat × Nat :=
  let ch := (stdio_read deviceByte).1
  (1, ch)

/-- Device state with one byte `0x48` pending in the hardware FIFO and no
reader waiting: the input on which `handle_irq` loses the byte. -/
def c1State : NS16550aRaw :=
  { rxFifo := [72], thrEmpty := false, thrWrites := []
    read_waker_list := [], write_waker_list := [], read_buffer := [] }

/-- Device state with two suspended readers (wakers 1 then 2) and two bytes
`0x41`, `0x42` pending in the hardware FIFO. -/
def c7State : NS16550aRaw :=
  { rxFifo := [65, 66], thrEmpty := false, thrWrites := []
    read_waker_list := [1, 2], write_waker_list := [], read_buffer := [] }

/-- Masking-counter state at nesting depth 1 (inside an outer guard). -/
def c8State : MaskSt :=
  { info := { nested_level := 1, intr_enable_before_masking := true }
    intrEnabled := false, hwOps := [] }

/-! ## Helper lemmas -/

theorem writer_poll_preserves_thrEmpty (ch w : Nat) (s : NS16550aRaw) :
    (writer_poll ch w s).1.thrEmpty = s.thrEmpty := by
  by_cases h : s.thrEmpty <;> simp [writer_poll, h]

theorem writer_pollN_no_write (n ch w : Nat) (s : NS16550aRaw)
    (h : s.thrEmpty = false) :
    (writer_pollN n ch w s).thrWrites = s.thrWrites := by
  induction n generalizing s with
  | zero => rfl
  | succ n ih =>
    show (writer_pollN n ch w (writer_poll ch w s).1).thrWrites = s.thrWrites
    rw [ih _ (by simp [writer_poll, h])]
    simp [writer_poll, h]

theorem reader_poll_count_le (w : Nat) (s : NS16550aRaw)
    (h : s.read_waker_list.count w ≤ 1) :
    (reader_poll w s).1.read_waker_list.count w ≤ 1 := by
  cases hb : s.read_buffer with
  | cons ch rest => simpa [reader_poll, hb] using h
  | nil =>
    by_cases hm : w ∈ s.read_waker_list
    · simpa [reader_poll, hb, hm] using h
    · simp [reader_poll, hb, hm, List.count_eq_zero.mpr hm]

theorem reader_pollN_count_le (n w : Nat) (s : NS16550aRaw)
    (h : s.read_waker_list.count w ≤ 1) :
    (reader_pollN n w s).read_waker_list.count w ≤ 1 := by
  induction n generalizing s with
  | zero => exact h
  | succ n ih => exact ih _ (reader_poll_count_le w s h)

theorem reader_poll_buffer_le (w : Nat) (s : NS16550aRaw) :
    (reader_poll w s).1.read_buffer.length ≤ s.read_buffer.length := by
  cases hb : s.read_buffer with
  | cons ch rest => simp [reader_poll, hb]
  | nil => by_cases hm : w ∈ s.read_waker_list <;> simp [reader_poll, hb, hm]

theorem writer_poll_buffer_eq (ch w : Nat) (s : NS16550aRaw) :
    (writer_poll ch w s).1.read_buffer = s.read_buffer := by
  by_cases h : s.thrEmpty <;> simp [writer_poll, h]

/-! ## Claims -/

/-- C1: the claim says a byte drained by `handle_irq` while `read_waker_list`
is empty is pushed into `read_buffer` and retained until a reader completes
with it.  The code pushes the byte only inside
`if let Some(waker) = read_waker_list.pop_front()`: with no waiter, the byte
is consumed from the hardware FIFO and discarded.  Evaluated at `c1State`
(byte `0x48` pending, no waiter): after `handle_irq` the FIFO is drained, the
receive buffer is still empty, nobody is woken, and a subsequent reader poll
does not complete with the byte. -/
theorem handle_irq_drops_byte_without_waiter :
    (handle_irq c1State).1.rxFifo = [] ∧
    (handle_irq c1State).1.read_buffer = [] ∧
    (handle_irq c1State).2 = [] ∧
    (reader_poll 7 (handle_irq c1State).1).2 = none := by
  decide

/-- C4: a writer poll with the transmitter ready writes its byte to the
transmit register exactly once and completes; a poll before readiness appends
the waker to `write_waker_list`, stays pending, and performs no register
write — and arbitrarily many polls before readiness never write. -/
theorem writer_poll_correct (ch w : Nat) (s : NS16550aRaw) :
    (s.thrEmpty = true →
      writer_poll ch w s = ({ s with thrWrites := s.thrWrites ++ [ch] }, some ())) ∧
    (s.thrEmpty = false →
      writer_poll ch w s =
        ({ s with write_waker_list := s.write_waker_list ++ [w] }, none)) ∧
    (s.thrEmpty = false → ∀ n, (writer_pollN n ch w s).thrWrites = s.thrWrites) := by
  refine ⟨fun h => ?_, fun h => ?_, fun h n => writer_pollN_no_write n ch w s h⟩ <;>
    simp [writer_poll, h]

/-- Witness for C4 at a concrete not-ready device: three consecutive polls of
a writer of byte `0x41` with waker `7` produce no transmit-register write. -/
theorem writer_poll_correct_witness :
    (writer_pollN 3 65 7
      { rxFifo := [], thrEmpty := false, thrWrites := []
        read_waker_list := [], write_waker_list := [], read_buffer := [] }).thrWrites
      = [] :=
  (writer_poll_correct 65 7 _).2.2 rfl 3

/-- C5: a reader poll with a non-empty `read_buffer` pops the front byte and
completes with it; with an empty buffer it stays pending and registers the
waker only when no registered waker would wake the same task, so across any
number of polls the waker occupies at most one queue entry. -/
theorem reader_poll_correct (w : Nat) (s : NS16550aRaw) :
    (∀ ch rest, s.read_buffer = ch :: rest →
      reader_poll w s = ({ s with read_buffer := rest }, some ch)) ∧
    (s.read_buffer = [] →
      (reader_poll w s).2 = none ∧
      (reader_poll w s).1.read_waker_list =
        (if s.read_waker_list.contains w then s.read_waker_list
         else s.read_waker_list ++ [w])) ∧
    (∀ n, s.read_waker_list.count w ≤ 1 →
      (reader_pollN n w s).read_waker_list.count w ≤ 1) := by
  refine ⟨fun ch rest h => ?_, fun h => ?_,
    fun n h => reader_pollN_count_le n w s h⟩
  · simp [reader_poll, h]
  · by_cases hm : w ∈ s.read_waker_list <;> simp [reader_poll, h, hm]

/-- Witness for C5 at a concrete empty device: five consecutive polls of one
suspended reader with waker `2` leave at most one entry for it. -/
theorem reader_poll_correct_witness :
    (reader_pollN 5 2
      { rxFifo := [], thrEmpty := false, thrWrites := []
        read_waker_list := [], write_waker_list := [], read_buffer := [] }).read_waker_list.count 2
      ≤ 1 :=
  (reader_poll_correct 2 _).2.2 5 (by decide)

/-- C6: one `handle_irq` invocation consumes at most one byte from the
hardware FIFO, never writes the transmit register, pops (and wakes) at most
the oldest read waiter and at most the oldest write waiter, and the woken
list is exactly those; and the dispatcher is the sole pusher of
`read_buffer` — reader polls never grow it and writer polls leave it
unchanged. -/
theorem handle_irq_bounded (s : NS16550aRaw) (w ch : Nat) :
    (handle_irq s).1.thrWrites = s.thrWrites ∧
    (handle_irq s).1.rxFifo = s.rxFifo.tail ∧
    (handle_irq s).1.read_waker_list =
      (if s.rxFifo.isEmpty then s.read_waker_list else s.read_waker_list.tail) ∧
    (handle_irq s).1.write_waker_list =
      (if s.thrEmpty then s.write_waker_list.tail else s.write_waker_list) ∧
    (handle_irq s).2 =
      (if s.rxFifo.isEmpty then [] else s.read_waker_list.take 1) ++
        (if s.thrEmpty then s.write_waker_list.take 1 else []) ∧
    (reader_poll w s).1.read_buffer.length ≤ s.read_buffer.length ∧
    (writer_poll ch w s).1.read_buffer = s.read_buffer := by
  obtain ⟨fifo, thr, tw, rwl, wwl, rb⟩ := s
  refine ⟨?_, ?_, ?_, ?_, ?_,
    reader_poll_buffer_le w _, writer_poll_buffer_eq ch w _⟩ <;>
    cases fifo <;> cases rwl <;> cases thr <;> cases wwl <;>
      simp [handle_irq, NS16550aRaw.tryRead, NS16550aRaw.writable]

/-- C7 counterexample: readers R1 (waker 1) and R2 (waker 2) suspend in that
order; bytes `0x41` then `0x42` arrive via two `handle_irq` invocations.  If
the scheduler then polls R2 before R1, R2 completes with the FIRST byte
`0x41`, not the second — the claim's "whatever order the scheduler
subsequently polls them in" fails, because a reader poll pops the front of
the shared `read_buffer` regardless of which reader runs. -/
theorem reader_reordered_when_polled_out_of_order :
    (reader_poll 2 (handle_irq (handle_irq c7State).1).1).2 = some 65 ∧
    (65 : Nat) ≠ 66 := by
  decide

/-- C7 amended: with readers R1 then R2 suspended and two bytes arriving via
two dispatcher invocations, the dispatcher wakes R1 first and R2 second, and
byte assignment follows the order the scheduler polls the readers: polled
R1-then-R2 they complete with the first and second byte respectively, while
the reader polled first always receives the first-arrived byte. -/
theorem reader_fifo_in_poll_order (b1 b2 w1 w2 : Nat) :
    (handle_irq
      { rxFifo := [b1, b2], thrEmpty := false, thrWrites := []
        read_waker_list := [w1, w2], write_waker_list := [], read_buffer := [] }).2
      = [w1] ∧
    (handle_irq (handle_irq
      { rxFifo := [b1, b2], thrEmpty := false, thrWrites := []
        read_waker_list := [w1, w2], write_waker_list := [], read_buffer := [] }).1).2
      = [w2] ∧
    (reader_poll w1 (handle_irq (handle_irq
      { rxFifo := [b1, b2], thrEmpty := false, thrWrites := []
        read_waker_list := [w1, w2], write_waker_list := [], read_buffer := [] }).1).1).2
      = some b1 ∧
    (reader_poll w2 (reader_poll w1 (handle_irq (handle_irq
      { rxFifo := [b1, b2], thrEmpty := false, thrWrites := []
        read_waker_list := [w1, w2], write_waker_list := [], read_buffer := [] }).1).1).1).2
      = some b2 ∧
    (reader_poll w2 (handle_irq (handle_irq
      { rxFifo := [b1, b2], thrEmpty := false, thrWrites := []
        read_waker_list := [w1, w2], write_waker_list := [], read_buffer := [] }).1).1).2
      = some b1 := by
  refine ⟨?_, ?_, ?_, ?_, ?_⟩ <;>
    simp [handle_irq, NS16550aRaw.tryRead, NS16550aRaw.writable, reader_poll]

theorem applySig_finished (f : ExecFlags) (sig : ExecSig) :
    (applySig f sig).finished = true ↔ (f.finished = true ∨ sig = ExecSig.finish) := by
  cases sig <;> simp [applySig]

theorem applySigs_finished (batch : List ExecSig) (f : ExecFlags) :
    (applySigs f batch).finished = true ↔
      (f.finished = true ∨ ExecSig.finish ∈ batch) := by
  induction batch generalizing f with
  | nil => simp [applySigs]
  | cons sig rest ih =>
    show (applySigs (applySig f sig) rest).finished = true ↔ _
    rw [ih, applySig_finished]
    simp only [List.mem_cons, or_assoc, @eq_comm _ ExecSig.finish]

theorem execDecide_preserves_finished (f : ExecFlags) :
    (execDecide f).2.finished = f.finished := by
  obtain ⟨wp, fin⟩ := f
  cases fin <;> cases wp <;> rfl

theorem execDecide_not_exit (f : ExecFlags) (h : f.finished = false) :
    (execDecide f).1 ≠ ExecStep.exit := by
  obtain ⟨wp, fin⟩ := f
  cases fin <;> cases wp <;> simp_all [execDecide]

theorem execRun_cons_exit (f : ExecFlags) (batch : List ExecSig)
    (rest : List (List ExecSig)) (h : (applySigs f batch).finished = true) :
    execRun f (batch :: rest) = some 0 := by
  show (match execDecide (applySigs f batch) with
        | (.exit, _) => some 0
        | (_, f2) => (execRun f2 rest).map (· + 1)) = some 0
  have : execDecide (applySigs f batch) = (.exit, applySigs f batch) := by
    simp [execDecide, h]
  rw [this]

theorem execRun_cons_cont (f : ExecFlags) (batch : List ExecSig)
    (rest : List (List ExecSig)) (h : (applySigs f batch).finished = false) :
    execRun f (batch :: rest) =
      (execRun (execDecide (applySigs f batch)).2 rest).map (· + 1) := by
  show (match execDecide (applySigs f batch) with
        | (.exit, _) => some 0
        | (_, f2) => (execRun f2 rest).map (· + 1)) = _
  rcases hd : execDecide (applySigs f batch) with ⟨step, f2⟩
  have hne : step ≠ ExecStep.exit := by
    have := execDecide_not_exit (applySigs f batch) h
    rw [hd] at this
    exact this
  cases step with
  | exit => exact absurd rfl hne
  | repoll => rfl
  | halt => rfl

theorem execRun_isSome (batches : List (List ExecSig)) (f : ExecFlags)
    (hf : f.finished = false) :
    (execRun f batches).isSome = true ↔ ∃ b ∈ batches, ExecSig.finish ∈ b := by
  induction batches generalizing f with
  | nil => simp [execRun]
  | cons batch rest ih =>
    by_cases hfin : (applySigs f batch).finished = true
    · have hb : ExecSig.finish ∈ batch := by
        rcases (applySigs_finished batch f).mp hfin with h | h
        · rw [hf] at h; cases h
        · exact h
      rw [execRun_cons_exit f batch rest hfin]
      simp only [Option.isSome_some, true_iff]
      exact ⟨batch, List.mem_cons_self _ _, hb⟩
    · have hfin' : (applySigs f batch).finished = false :=
        Bool.not_eq_true _ ▸ (Bool.eq_false_iff.mpr hfin)
      have hb : ExecSig.finish ∉ batch := fun hmem =>
        hfin ((applySigs_finished batch f).mpr (Or.inr hmem))
      rw [execRun_cons_cont f batch rest hfin']
      have hf2 : (execDecide (applySigs f batch)).2.finished = false := by
        rw [execDecide_preserves_finished]; exact hfin'
      have hmap : ∀ o : Option Nat,
          (Option.map (fun x => x + 1) o).isSome = o.isSome := fun o => by
        cases o <;> rfl
      rw [hmap, ih _ hf2]
      constructor
      · rintro ⟨b, hbm, hbf⟩
        exact ⟨b, List.mem_cons_of_mem _ hbm, hbf⟩
      · rintro ⟨b, hbm, hbf⟩
        rcases List.mem_cons.mp hbm with rfl | hbm
        · exact absurd hbf hb
        · exact ⟨b, hbm, hbf⟩

theorem execRun_some_take (batches : List (List ExecSig)) (f : ExecFlags)
    (n : Nat) (hf : f.finished = false) (h : execRun f batches = some n) :
    ∃ b ∈ batches.take (n + 1), ExecSig.finish ∈ b := by
  induction batches generalizing f n with
  | nil => simp [execRun] at h
  | cons batch rest ih =>
    by_cases hfin : (applySigs f batch).finished = true
    · have hb : ExecSig.finish ∈ batch := by
        rcases (applySigs_finished batch f).mp hfin with h' | h'
        · rw [hf] at h'; cases h'
        · exact h'
      exact ⟨batch, by simp [List.take], hb⟩
    · have hfin' : (applySigs f batch).finished = false :=
        Bool.not_eq_true _ ▸ (Bool.eq_false_iff.mpr hfin)
      rw [execRun_cons_cont f batch rest hfin'] at h
      rcases Option.map_eq_some'.mp h with ⟨m, hm, hnm⟩
      have hf2 : (execDecide (applySigs f batch)).2.finished = false := by
        rw [execDecide_preserves_finished]; exact hfin'
      rcases ih _ m hf2 hm with ⟨b, hbm, hbf⟩
      refine ⟨b, ?_, hbf⟩
      rw [← hnm]
      exact List.mem_cons_of_mem _ (by simpa using hbm)

/-- C2: the executor's loop, run against any finite trace of signal batches
from an unfinished start state, breaks out iff some batch delivers the
termination marker's `finish` signal, and when it breaks at iteration `n` the
marker was delivered within the first `n + 1` batches (never before the
invocation); an iteration seeing `finished` unset and `work_pending` set
clears the flag and re-polls rather than exiting, and one seeing both unset
halts the processor (`wfi`) leaving the flags untouched. -/
theorem executor_run_terminates_iff_finish (f : ExecFlags)
    (batches : List (List ExecSig)) (hf : f.finished = false) :
    ((execRun f batches).isSome = true ↔ ∃ b ∈ batches, ExecSig.finish ∈ b) ∧
    (∀ n, execRun f batches = some n →
      ∃ b ∈ batches.take (n + 1), ExecSig.finish ∈ b) ∧
    (∀ g : ExecFlags, g.finished = false → g.work_pending = true →
      execDecide g = (ExecStep.repoll, { g with work_pending := false })) ∧
    (∀ g : ExecFlags, g.finished = false → g.work_pending = false →
      execDecide g = (ExecStep.halt, g)) := by
  refine ⟨execRun_isSome batches f hf,
    fun n h => execRun_some_take batches f n hf h,
    fun g hg hw => ?_, fun g hg hw => ?_⟩ <;>
    simp [execDecide, hg, hw]

/-- Witness for C2: from cleared flags, with two spurious pend-only batches
followed by a batch carrying the termination marker, the loop terminates. -/
theorem executor_run_terminates_witness :
    ((execRun { work_pending := false, finished := false }
        [[ExecSig.pend], [ExecSig.pend], [ExecSig.finish]]).isSome = true ↔
      ∃ b ∈ [[ExecSig.pend], [ExecSig.pend], [ExecSig.finish]],
        ExecSig.finish ∈ b) :=
  (executor_run_terminates_iff_finish
    { work_pending := false, finished := false } _ rfl).1

theorem runOps_append (u v : List MOp) (s : MaskSt) :
    runOps (u ++ v) s = runOps v (runOps u s) := by
  induction u generalizing s with
  | nil => rfl
  | cons op rest ih => exact ih (applyMOp s op)

theorem enterOp_deep (s : MaskSt) (h : s.info.nested_level ≠ 0) :
    enterOp s =
      { info := { s.info with nested_level := s.info.nested_level + 1 }
        intrEnabled := false, hwOps := s.hwOps ++ [HwOp.disable] } := by
  simp [enterOp, h]

theorem exitOp_deep (s : MaskSt) (h : s.info.nested_level - 1 ≠ 0) :
    exitOp s =
      { s with info := { s.info with nested_level := s.info.nested_level - 1 } } := by
  simp [exitOp, h]

/-- Unfolding of a wrapped sequence: run the body between the matching
enter and exit. -/
theorem runOps_wrap (w : List MOp) (s : MaskSt) :
    runOps (MOp.enter :: w ++ [MOp.exit]) s =
      exitOp (runOps w (enterOp s)) := by
  show runOps (w ++ [MOp.exit]) (enterOp s) = _
  rw [runOps_append]
  rfl

/-- Behaviour of `exit()` from exact depth 1: depth returns to 0 and interrupts end up
enabled iff the recorded prior state was enabled or they somehow already
were. -/
theorem exitOp_at_one (t : MaskSt) (h : t.info.nested_level = 1) :
    (exitOp t).info.nested_level = 0 ∧
    (exitOp t).intrEnabled =
      (t.info.intr_enable_before_masking || t.intrEnabled) := by
  cases hsv : t.info.intr_enable_before_masking <;> simp [exitOp, h, hsv]

/-- Running any well-nested call sequence from a state that is already inside
at least one guard (nesting depth ≥ 1) preserves the depth and the recorded
prior state, and never re-enables interrupts (the enable state is unchanged
or forced off). -/
theorem runOps_bal_deep {w : List MOp} (hw : Bal w) :
    ∀ s : MaskSt, 1 ≤ s.info.nested_level →
      (runOps w s).info.nested_level = s.info.nested_level ∧
      (runOps w s).info.intr_enable_before_masking =
        s.info.intr_enable_before_masking ∧
      ((runOps w s).intrEnabled = s.intrEnabled ∨
        (runOps w s).intrEnabled = false) := by
  induction hw with
  | nil => exact fun s _ => ⟨rfl, rfl, Or.inl rfl⟩
  | @wrap w hw ih =>
    intro s hs
    have hne : s.info.nested_level ≠ 0 := by omega
    have hdeep : 1 ≤ (enterOp s).info.nested_level := by
      rw [enterOp_deep s hne]
      show 1 ≤ s.info.nested_level + 1
      omega
    obtain ⟨hd, hsv, hen⟩ := ih (enterOp s) hdeep
    have hd' : (runOps w (enterOp s)).info.nested_level =
        s.info.nested_level + 1 := by
      rw [hd, enterOp_deep s hne]
    have hx : (runOps w (enterOp s)).info.nested_level - 1 ≠ 0 := by omega
    have hsv' : (runOps w (enterOp s)).info.intr_enable_before_masking =
        s.info.intr_enable_before_masking := by
      rw [hsv, enterOp_deep s hne]
    have hen' : (runOps w (enterOp s)).intrEnabled = false := by
      rcases hen with hen | hen
      · rw [hen, enterOp_deep s hne]
      · exact hen
    rw [runOps_wrap, exitOp_deep _ hx]
    refine ⟨?_, hsv', Or.inr hen'⟩
    show (runOps w (enterOp s)).info.nested_level - 1 = s.info.nested_level
    omega
  | @app u v hu hv ihu ihv =>
    intro s hs
    rw [runOps_append]
    obtain ⟨hdu, hsu, heu⟩ := ihu s hs
    have hs' : 1 ≤ (runOps u s).info.nested_level := by omega
    obtain ⟨hdv, hsv, hev⟩ := ihv (runOps u s) hs'
    refine ⟨by omega, by rw [hsv, hsu], ?_⟩
    rcases hev with hev | hev
    · rcases heu with heu | heu
      · exact Or.inl (by rw [hev, heu])
      · exact Or.inr (by rw [hev, heu])
    · exact Or.inr hev

/-- Any well-nested sequence of enter/exit calls, executed from nesting depth
zero, restores depth zero and restores the hardware interrupt-enable state to
exactly what it was before the first enter. -/
theorem runOps_bal_zero {w : List MOp} (hw : Bal w) :
    ∀ s : MaskSt, s.info.nested_level = 0 →
      (runOps w s).info.nested_level = 0 ∧
      (runOps w s).intrEnabled = s.intrEnabled := by
  induction hw with
  | nil => exact fun s h0 => ⟨h0, rfl⟩
  | @wrap w hw ih =>
    intro s hs
    have he : enterOp s =
        { info := { nested_level := 1, intr_enable_before_masking := s.intrEnabled }
          intrEnabled := false, hwOps := s.hwOps ++ [HwOp.disable] } := by
      simp [enterOp, hs]
    have hdeep : 1 ≤ (enterOp s).info.nested_level := by
      rw [he]
    obtain ⟨hd, hsv, hen⟩ := runOps_bal_deep hw (enterOp s) hdeep
    have hd1 : (runOps w (enterOp s)).info.nested_level = 1 := by rw [hd, he]
    have hsv1 : (runOps w (enterOp s)).info.intr_enable_before_masking =
        s.intrEnabled := by rw [hsv, he]
    have hen0 : (runOps w (enterOp s)).intrEnabled = false := by
      rcases hen with hen | hen
      · rw [hen, he]
      · exact hen
    obtain ⟨hz, hev⟩ := exitOp_at_one (runOps w (enterOp s)) hd1
    rw [runOps_wrap]
    refine ⟨hz, ?_⟩
    rw [hev, hsv1, hen0]
    exact Bool.or_false _
  | @app u v hu hv ihu ihv =>
    intro s hs
    rw [runOps_append]
    obtain ⟨hdu, heu⟩ := ihu s hs
    obtain ⟨hdv, hev⟩ := ihv (runOps u s) hdu
    exact ⟨hdv, by rw [hev, heu]⟩

/-- C3: for every well-nested sequence of masking-counter enter/exit calls
starting from nesting depth 0, after the final exit the nesting counter is
back to zero and interrupts are enabled iff they were enabled immediately
before the first enter. -/
theorem intr_masking_well_nested (w : List MOp) (hw : Bal w) (s : MaskSt)
    (h0 : s.info.nested_level = 0) :
    (runOps w s).info.nested_level = 0 ∧
    (runOps w s).intrEnabled = s.intrEnabled :=
  runOps_bal_zero hw s h0

/-- Witness for C3: the nested sequence enter-enter-exit-exit from depth 0
with interrupts initially enabled ends at depth 0 with interrupts enabled. -/
theorem intr_masking_well_nested_witness :
    (runOps [MOp.enter, MOp.enter, MOp.exit, MOp.exit]
      { info := { nested_level := 0, intr_enable_before_masking := false }
        intrEnabled := true, hwOps := [] }).info.nested_level = 0 ∧
    (runOps [MOp.enter, MOp.enter, MOp.exit, MOp.exit]
      { info := { nested_level := 0, intr_enable_before_masking := false }
        intrEnabled := true, hwOps := [] }).intrEnabled = true :=
  intr_masking_well_nested _ (Bal.wrap (Bal.wrap Bal.nil)) _ rfl

/-- C8 counterexample: the claim says `enter()` issues the hardware
interrupt-disable only when the depth transitions 0→1.  At `c8State` (depth
1, i.e. a 1→2 transition) `enter()` still issues the disable — the code calls
`swap_and_disable_intr` unconditionally on every enter. -/
theorem enter_issues_disable_when_nested :
    c8State.info.nested_level ≠ 0 ∧
    (enterOp c8State).hwOps ≠ c8State.hwOps := by
  decide

/-- C8 amended: every `enter()` increments the depth and issues the hardware
swap-and-disable (leaving interrupts disabled) — on every call, not only on
the 0→1 transition, though at deeper levels interrupts are already disabled
and the recorded prior state is updated only at the 0→1 transition; every
`exit()` decrements the depth and issues the hardware re-enable exactly when
the depth reaches 0 and the recorded prior state was enabled. -/
theorem enter_exit_hw_behavior (s : MaskSt) :
    (enterOp s).info.nested_level = s.info.nested_level + 1 ∧
    (enterOp s).hwOps = s.hwOps ++ [HwOp.disable] ∧
    (enterOp s).intrEnabled = false ∧
    (enterOp s).info.intr_enable_before_masking =
      (if s.info.nested_level = 0 then s.intrEnabled
       else s.info.intr_enable_before_masking) ∧
    (exitOp s).info.nested_level = s.info.nested_level - 1 ∧
    (exitOp s).hwOps =
      (if s.info.nested_level - 1 = 0 ∧ s.info.intr_enable_before_masking = true
       then s.hwOps ++ [HwOp.enable] else s.hwOps) ∧
    (exitOp s).intrEnabled =
      (if s.info.nested_level - 1 = 0 ∧ s.info.intr_enable_before_masking = true
       then true else s.intrEnabled) := by
  obtain ⟨⟨lvl, saved⟩, en, ops⟩ := s
  cases saved <;> by_cases hl : lvl - 1 = 0 <;> by_cases h0 : lvl = 0 <;>
    simp [enterOp, exitOp, hl, h0]

/-- C9: `exclusive_access()` on a cell with a live borrow is fatal (no
recoverable-error value, modelled as `none`); with no live borrow it returns
the guard, holding exclusive access — a second access while the guard lives
is fatal — until the guard is dropped, which ends the borrow and makes the
next access succeed.  The same discipline holds for `UPIntrFreeCell`, whose
access additionally enters the masking counter and whose guard drop exits
it. -/
theorem exclusive_access_fatal_iff_borrowed (c : UPSafeCellSt) (b : Bool)
    (m : MaskSt) :
    (upSafeCell_exclusive_access c = none ↔ c.borrowed = true) ∧
    upSafeCell_exclusive_access { borrowed := false } =
      some { borrowed := true } ∧
    upSafeCell_exclusive_access { borrowed := true } = none ∧
    upSafeCell_drop_guard c = { borrowed := false } ∧
    upSafeCell_exclusive_access (upSafeCell_drop_guard c) =
      some { borrowed := true } ∧
    (upIntrFreeCell_exclusive_access { borrowed := b, mask := m } = none ↔
      b = true) ∧
    upIntrFreeCell_exclusive_access { borrowed := false, mask := m } =
      some { borrowed := true, mask := enterOp m } ∧
    upIntrFreeCell_drop_guard { borrowed := b, mask := m } =
      { borrowed := false, mask := exitOp m } := by
  obtain ⟨cb⟩ := c
  cases cb <;> cases b <;>
    simp [upSafeCell_exclusive_access, upSafeCell_drop_guard,
      upIntrFreeCell_exclusive_access, upIntrFreeCell_drop_guard]

/-- C10: the file-layer blocking read returns the constant byte `0x48`
(`'H' as u8`) to its caller and stores that constant into the 1-byte user
buffer with count 1, regardless of the byte the spawned `send_data` task
received from the device; the received byte is only printed inside the task
(which then marks the work finished). -/
theorem stdio_read_returns_constant (deviceByte : Nat) :
    (stdio_read deviceByte).1 = 72 ∧
    (stdin_read deviceByte).1 = 1 ∧
    (stdin_read deviceByte).2 = 72 ∧
    (stdio_read deviceByte).2.printed = deviceByte ∧
    (stdio_read deviceByte).2.finishMarked = true :=
  ⟨rfl, rfl, rfl, rfl, rfl⟩

end RCoreAsync
